import Mathlib

/-!
Verification of the qenerate core: a GraphQL-query-to-pydantic-model code
generator.  The definitions below are shallow embeddings of
src/qenerate/core/unwrapper.py and src/qenerate/plugins/pydantic_v1/plugin.py:
pure Python functions become Lean functions, the in-place list sort performed
by ParsedClassNode.field_type during emission becomes explicit state passing
(functions return the updated node next to the produced string), and the
mutable visitor cursor of FieldToTypeMatcherVisitor becomes an explicit
arena-and-cursor state threaded over the visit events.
-/

set_option autoImplicit false

namespace Qenerate

/-! String helpers mirroring the exact Python string primitives the plugin
uses (str.join, str.replace, slicing).  They are defined structurally so that
concrete runs evaluate inside the kernel. -/

/-- Concatenation of a list of strings, mirroring repeated
`result = f"{result}{part}"` accumulation in the plugin. -/
def strConcat : List String → String
  | [] => ""
  | a :: rest => a ++ strConcat rest

/-- Python `sep.join(parts)`: the parts interleaved with the separator,
empty string for an empty list. -/
def pyJoin (sep : String) : List String → String
  | [] => ""
  | a :: rest => List.foldl (fun acc x => acc ++ sep ++ x) a rest

/-- Python `s.replace("", rep)`: the replacement inserted before every
character and once at the end. -/
def pyReplaceEmptyPat (rep : List Char) : List Char → List Char
  | [] => rep
  | c :: rest => rep ++ c :: pyReplaceEmptyPat rep rest

/-- Fuel-driven core of Python `str.replace` for a non-empty pattern:
scan left to right, replacing non-overlapping occurrences.  Each step
consumes at least one character, so fuel equal to the length of the
scanned list makes the fuel case unreachable. -/
def pyReplaceAux (pat rep : List Char) : Nat → List Char → List Char
  | _, [] => []
  | 0, s => s
  | Nat.succ fuel, c :: rest =>
    if pat.isPrefixOf (c :: rest) then
      rep ++ pyReplaceAux pat rep fuel (List.drop pat.length (c :: rest))
    else
      c :: pyReplaceAux pat rep fuel rest

/-- Python `s.replace(pat, rep)` (all occurrences, left to right). -/
def pyReplace (s pat rep : String) : String :=
  match pat.data with
  | [] => ⟨pyReplaceEmptyPat rep.data s.data⟩
  | _ :: _ => ⟨pyReplaceAux pat.data rep.data s.data.length s.data⟩

/-- Python `s[:-2]`: the string without its last two characters (empty when
the string has at most two characters). -/
def pyDropLast2 (s : String) : String := ⟨s.data.dropLast.dropLast⟩

/-- Python `s[-1]` as a one-character string; the source never evaluates it
on an empty string (theorems carry that hypothesis), the empty-input value
here is the empty string. -/
def pyLastChar (s : String) : String :=
  match s.data.getLast? with
  | some c => ⟨[c]⟩
  | none => ""

/-! Embedding of src/qenerate/core/unwrapper.py. -/

/-- GraphQL output types as the unwrapper sees them: scalars, named object
or interface types, and the two wrapper constructors GraphQLNonNull and
GraphQLList. -/
inductive GqlType where
  | scalar (name : String)
  | object (name : String)
  | nonNull (t : GqlType)
  | listT (t : GqlType)
deriving DecidableEq, Repr

/-- Tag for one removed wrapper layer (class WrapperType in unwrapper.py). -/
inductive WrapperType where
  | LIST
  | OPTIONAL
deriving DecidableEq, Repr

/-- Result record of Unwrapper.unwrap (class UnwrapperResult). -/
structure UnwrapperResult where
  wrapper_stack : List WrapperType
  inner_gql_type : GqlType
  is_primitive : Bool
deriving DecidableEq, Repr

/-- Python `isinstance(t, GraphQLScalarType)`. -/
def GqlType.isScalar : GqlType → Bool
  | .scalar _ => true
  | _ => false

/-- Embedding of Unwrapper.unwrap: strip one non-null layer (recording
OPTIONAL when it is absent), then, if a list layer follows, record LIST and
recurse into the element type, extending the stack with the recursive
result. -/
def unwrap : GqlType → UnwrapperResult
  | .nonNull (.listT e) =>
    let res := unwrap e
    ⟨.LIST :: res.wrapper_stack, res.inner_gql_type, res.is_primitive⟩
  | .nonNull t => ⟨[], t, t.isScalar⟩
  | .listT e =>
    let res := unwrap e
    ⟨.OPTIONAL :: .LIST :: res.wrapper_stack, res.inner_gql_type, res.is_primitive⟩
  | t => ⟨[.OPTIONAL], t, t.isScalar⟩

/-- Well-formed wrapped schema types: any nesting of non-null and list
wrappers in which non-null never directly wraps non-null (GraphQL forbids
NonNull(NonNull(...))). -/
def GqlType.wellFormed : GqlType → Bool
  | .scalar _ => true
  | .object _ => true
  | .nonNull (.nonNull _) => false
  | .nonNull t => t.wellFormed
  | .listT t => t.wellFormed

/-- Reapplication of a reported wrapper stack (ordered outermost-first)
around an inner type, innermost-out in reverse order: a level with no
OPTIONAL tag is non-null, and each LIST tag contributes one list layer. -/
def rebuild : List WrapperType → GqlType → GqlType
  | [], t => .nonNull t
  | .LIST :: rest, t => .nonNull (.listT (rebuild rest t))
  | [.OPTIONAL], t => t
  | .OPTIONAL :: .LIST :: rest, t => .listT (rebuild rest t)
  | .OPTIONAL :: .OPTIONAL :: rest, t => rebuild rest t

/-! Embedding of the ParsedFieldType record and of
FieldToTypeMatcherVisitor._parse_type from plugins/pydantic_v1/plugin.py. -/

/-- Record produced for every selection node (class ParsedFieldType). -/
structure ParsedFieldType where
  unwrapped_python_type : String
  wrapped_python_type : String
  is_primitive : Bool
deriving DecidableEq, Repr

/-- Python `isinstance(t, GraphQLNonNull) or isinstance(t, GraphQLList)`:
the `needs_further_unwrapping` test of _parse_type. -/
def GqlType.isWrapper : GqlType → Bool
  | .nonNull _ => true
  | .listT _ => true
  | _ => false

/-- Python `isinstance(t, GraphQLList)` after the non-null strip. -/
def GqlType.isListT : GqlType → Bool
  | .listT _ => true
  | _ => false

/-- Final rewrap step of _parse_type: the if/elif chain that checks
optional-and-list first, then plain optional, then plain list. -/
def rewrapFlags (is_optional is_list : Bool) (w : String) : String :=
  if is_optional && is_list then "Optional[list[" ++ w ++ "]]"
  else if is_optional then "Optional[" ++ w ++ "]"
  else if is_list then "list[" ++ w ++ "]"
  else w

/-- Embedding of _parse_type.  The bottom-type resolver `toPy` abstracts
self._to_python_type (the stateful class-naming method, modeled separately
below): _parse_type calls it exactly once per invocation, at the bottom of
the wrapper stack.  The four equations are the four shapes the two
stripping steps (at most one non-null, then at most one list) distinguish;
when wrapping remains underneath, the function recurses first. -/
def parseType (toPy : GqlType → String) : GqlType → ParsedFieldType
  | .nonNull (.listT u) =>
    if u.isWrapper then
      let r := parseType toPy u
      ⟨r.unwrapped_python_type, rewrapFlags false true r.wrapped_python_type,
        r.is_primitive⟩
    else
      ⟨toPy u, rewrapFlags false true (toPy u), u.isScalar⟩
  | .nonNull u =>
    if u.isWrapper then
      let r := parseType toPy u
      ⟨r.unwrapped_python_type, rewrapFlags false false r.wrapped_python_type,
        r.is_primitive⟩
    else
      ⟨toPy u, rewrapFlags false false (toPy u), u.isScalar⟩
  | .listT u =>
    if u.isWrapper then
      let r := parseType toPy u
      ⟨r.unwrapped_python_type, rewrapFlags true true r.wrapped_python_type,
        r.is_primitive⟩
    else
      ⟨toPy u, rewrapFlags true true (toPy u), u.isScalar⟩
  | u =>
    ⟨toPy u, rewrapFlags true false (toPy u), u.isScalar⟩

/-- Optional flag of _parse_type: set unless the outermost layer is
non-null. -/
def optFlag : GqlType → Bool
  | .nonNull _ => false
  | _ => true

/-- List flag of _parse_type: set when, after stripping at most one
non-null layer, a list layer is present. -/
def listFlag : GqlType → Bool
  | .nonNull u => u.isListT
  | u => u.isListT

/-- The type reached after the two stripping steps of _parse_type (at most
one non-null, then at most one list). -/
def coreType : GqlType → GqlType
  | .nonNull (.listT u) => u
  | .nonNull u => u
  | .listT u => u
  | u => u

/-- Wrapped-type expression of the resolved bottom: the recursive result's
wrapped expression when wrapping remains underneath, else the resolver's
bare name. -/
def bottomWrapped (toPy : GqlType → String) (u : GqlType) : String :=
  if u.isWrapper then (parseType toPy u).wrapped_python_type else toPy u

/-! Embedding of the class-name derivation and deduplication performed by
FieldToTypeMatcherVisitor._to_python_type for non-scalar inner types. -/

/-- Name derivation before deduplication: Python
`str(graphql_type).replace("_", "")` followed by
`f"{s[:-2]}V{s[-1]}"`. -/
def baseClassName (typeStr : String) : String :=
  let s := pyReplace typeStr "_" ""
  pyDropLast2 s ++ "V" ++ pyLastChar s

/-- Deduplication walk of _to_python_type: while an ancestor with a parent
of its own remains on the chain and the candidate is in the cache, prepend
that ancestor's unwrapped class name and an underscore and move one
ancestor up.  `ancestors` lists the unwrapped class names of self.parent,
its parent, and so on, stopping before the root node (the Python loop
condition `cur and cur.parent`). -/
def dedupWalk : List String → List String → String → String
  | [], _, name => name
  | a :: rest, cache, name =>
    if name ∈ cache then dedupWalk rest cache (a ++ "_" ++ name) else name

/-- Embedding of the non-scalar branch of _to_python_type: derive the base
class name, run the deduplication walk against the cache, and record the
final name in the cache (returned next to the name). -/
def toPythonTypeObject (ancestors cache : List String) (typeStr : String) :
    String × List String :=
  let name := dedupWalk ancestors cache (baseClassName typeStr)
  (name, name :: cache)

/-! Embedding of QueryParser.parse (error flow). -/

/-- Operation info as get_operation_ast reports it: the operation node's
optional name. -/
structure OpInfo where
  name : Option String
deriving DecidableEq, Repr

/-- Typed errors raised by QueryParser.parse (classes AnonymousQueryError
and InvalidQueryError; the latter carries the validation error list). -/
inductive QueryParseError where
  | anonymousQuery
  | invalidQuery (errors : List String)
deriving DecidableEq, Repr

/-! Embedding of the IR tree (classes ParsedNode, ParsedOperationNode,
ParsedClassNode, ParsedInlineFragmentNode of plugin.py).  The Python parent
back-reference is dropped from the tree shape (children are owned); every
place the source reads self.parent, the embedding passes the parent's
parsed_type (or none for a missing parent) down the traversal. -/

/-- Variant tag replacing the Python subclass dispatch on IR nodes. -/
inductive NodeKind where
  | root
  | operation
  | classNode
  | inlineFragment
deriving DecidableEq, Repr

/-- IR node: variant tag, resolved type description, the wire and python
field keys (meaningful on classNode, empty elsewhere), and the ordered
children list. -/
inductive PNode where
  | mk (kind : NodeKind) (parsed_type : ParsedFieldType) (gql_key py_key : String)
      (fields : List PNode)

/-- Variant tag of a node. -/
def PNode.kind : PNode → NodeKind
  | .mk k _ _ _ _ => k

/-- Resolved type description of a node. -/
def PNode.parsed_type : PNode → ParsedFieldType
  | .mk _ pt _ _ _ => pt

/-- Wire-format key of a node (alias or original field name). -/
def PNode.gql_key : PNode → String
  | .mk _ _ g _ _ => g

/-- Python-identifier key of a node. -/
def PNode.py_key : PNode → String
  | .mk _ _ _ p _ => p

/-- Ordered children of a node. -/
def PNode.fields : PNode → List PNode
  | .mk _ _ _ _ fs => fs

/-- Embedding of QueryParser.parse after the syntax-parsing step: `op` is the
get_operation_ast result, `validationErrors` the descriptions returned by
graphql validate, and `tree` the IR the visitor would build on the success
path.  The anonymous-operation check runs before validation, exactly as in
the source. -/
def queryParserParse (op : Option OpInfo) (validationErrors : List String)
    (tree : PNode) : Except QueryParseError PNode :=
  if (match op with | some o => o.name.isNone | none => false) then
    Except.error .anonymousQuery
  else if validationErrors ≠ [] then
    Except.error (.invalidQuery validationErrors)
  else
    Except.ok tree

/-! Embedding of the pydantic emitter: ParsedClassNode.field_type, the three
class_code_string methods, and PydanticV1Plugin._traverse.  field_type sorts
self.fields in place; the embedding makes that explicit by returning the
updated node next to each produced string. -/

instance : Inhabited PNode := ⟨.mk .root ⟨"", "", false⟩ "" "" []⟩

/-- Python `len(a.fields)`, the sort key of field_type. -/
def PNode.numFields (n : PNode) : Nat := n.fields.length

/-- Insertion step of a stable descending sort by number of children:
the inserted node goes in front of the first node whose child count does
not exceed its own. -/
def orderedInsertDesc (a : PNode) : List PNode → List PNode
  | [] => [a]
  | b :: l =>
    if b.numFields ≤ a.numFields then a :: b :: l else b :: orderedInsertDesc a l

/-- Stable sort by descending number of children, the semantics of Python
`fields.sort(key=lambda a: len(a.fields), reverse=True)` (Python sorts are
stable, also with reverse=True: equal keys keep their original order). -/
def pySortDesc : List PNode → List PNode
  | [] => []
  | a :: l => orderedInsertDesc a (pySortDesc l)

/-- Union-member collection loop of field_type: the unwrapped class name of
every inline-fragment child, in list order. -/
def collectUnions : List PNode → List String
  | [] => []
  | f :: rest =>
    if f.kind = .inlineFragment then
      f.parsed_type.unwrapped_python_type :: collectUnions rest
    else
      collectUnions rest

/-- Embedding of ParsedClassNode.field_type: sort the children in place
(stable, by descending child count), collect the fragment children's class
names, and when any exist substitute `Union[fragments..., own]` for the
unwrapped name inside the wrapped expression; the updated node carries the
sorted children. -/
def fieldTypeS (n : PNode) : String × PNode :=
  let sorted := pySortDesc n.fields
  let unions := collectUnions sorted
  (if unions = [] then
     n.parsed_type.wrapped_python_type
   else
     pyReplace n.parsed_type.wrapped_python_type n.parsed_type.unwrapped_python_type
       ("Union[" ++ pyJoin ", " (unions ++ [n.parsed_type.unwrapped_python_type]) ++ "]"),
   .mk n.kind n.parsed_type n.gql_key n.py_key sorted)

/-- One emitted field line:
`    <py_key>: <field type> = Field(..., alias="<gql_key>")`. -/
def fieldLineStr (py_key ft gql_key : String) : String :=
  "    " ++ py_key ++ ": " ++ ft ++ " = Field(..., alias=\"" ++ gql_key ++ "\")"

/-- Field-line loop shared by the class_code_string methods: one line per
classNode child (field_type sorts that child's own children in place, so the
updated children are returned too; non-classNode children are skipped and
left unchanged). -/
def fieldLinesS : List PNode → List String × List PNode
  | [] => ([], [])
  | f :: rest =>
    let r := fieldLinesS rest
    if f.kind = .classNode then
      let ft := fieldTypeS f
      (fieldLineStr f.py_key ft.1 f.gql_key :: r.1, ft.2 :: r.2)
    else
      (r.1, f :: r.2)

/-- Trailing Config block emitted by every class_code_string. -/
def configLines : List String :=
  ["", "    class Config:", "        smart_union = True", "        extra = Extra.forbid"]

/-- Embedding of the class_code_string methods, dispatching on the node
variant as the Python subclasses do.  `parentType` carries the parsed_type
of self.parent (none when the node has no parent).  Base ParsedNode (root)
emits nothing; a primitive classNode emits nothing; an inline fragment
without a parent or with a primitive type emits nothing; otherwise the
declaration is the newline-join of a "\n\n" lead-in, the class header, the
field lines, and the Config block.  The updated node carries the children
as mutated by the field_type calls. -/
def classCodeS (parentType : Option ParsedFieldType) (n : PNode) : String × PNode :=
  match n.kind with
  | .root => ("", n)
  | .operation =>
    let fl := fieldLinesS n.fields
    (pyJoin "\n"
       (["\n\n", "class " ++ n.parsed_type.unwrapped_python_type ++ "Query(BaseModel):"]
         ++ fl.1 ++ configLines),
     .mk n.kind n.parsed_type n.gql_key n.py_key fl.2)
  | .classNode =>
    if n.parsed_type.is_primitive then ("", n)
    else
      let fl := fieldLinesS n.fields
      (pyJoin "\n"
         (["\n\n", "class " ++ n.parsed_type.unwrapped_python_type ++ "(BaseModel):"]
           ++ fl.1 ++ configLines),
       .mk n.kind n.parsed_type n.gql_key n.py_key fl.2)
  | .inlineFragment =>
    match parentType with
    | none => ("", n)
    | some ppt =>
      if n.parsed_type.is_primitive then ("", n)
      else
        let fl := fieldLinesS n.fields
        (pyJoin "\n"
           (["\n\n", "class " ++ n.parsed_type.unwrapped_python_type ++ "("
               ++ ppt.unwrapped_python_type ++ "):"]
             ++ fl.1 ++ configLines),
         .mk n.kind n.parsed_type n.gql_key n.py_key fl.2)

/-! Embedding of PydanticV1Plugin._traverse together with the state it
mutates.  The source renders the non-fragment children (first loop), then
the node's own declaration (which sorts each classNode child's children via
field_type), then the fragment children (second loop, over the same list
object, whose fragment elements the declaration step never touches —
fieldLinesS returns non-classNode elements unchanged — so traversing the
original fragment children is the same).  Each child's render result is
computed once here and used in whichever loop consumes it; the final node
combines the declaration step's updated non-fragment children with the
traversed fragment children, positionally (fieldLinesS preserves list
length and order). -/
mutual

/-- Embedding of PydanticV1Plugin._traverse (see the comment above). -/
def traverseS (parentType : Option ParsedFieldType) (n : PNode) : String × PNode :=
  match n with
  | .mk k pt g p fs =>
    let res := travList pt fs
    let pairs := fs.zip res
    let s1 := strConcat (pairs.map fun cr =>
      if cr.1.kind = .inlineFragment then "" else cr.2.1)
    let fields1 := pairs.map fun cr =>
      if cr.1.kind = .inlineFragment then cr.1 else cr.2.2
    let own := classCodeS parentType (.mk k pt g p fields1)
    let s3 := strConcat (pairs.map fun cr =>
      if cr.1.kind = .inlineFragment then cr.2.1 else "")
    let fields3 := List.zipWith
      (fun a cr => if (cr : PNode × (String × PNode)).1.kind = .inlineFragment then cr.2.2 else a)
      own.2.fields pairs
    (s1 ++ own.1 ++ s3, .mk k pt g p fields3)

/-- Child-list traversal: the recursive render of every child (the two
loops of _traverse pick out of it the non-fragment and the fragment
results respectively). -/
def travList (pt : ParsedFieldType) : List PNode → List (String × PNode)
  | [] => []
  | c :: rest => traverseS (some pt) c :: travList pt rest

end

/-- A node with its immediate children stably re-sorted by descending child
count — the in-place effect of one field_type call. -/
def sortChildFields : PNode → PNode
  | .mk k pt g p fs => .mk k pt g p (pySortDesc fs)

/-- Whether a node's class_code_string reaches its field-line loop (and so
emits a declaration): the root never, an operation always, a classNode or
an inline fragment when non-primitive, the fragment additionally requiring
a parent. -/
def emitsDecl (parentType : Option ParsedFieldType) (k : NodeKind)
    (pt : ParsedFieldType) : Bool :=
  match k with
  | .root => false
  | .operation => true
  | .classNode => !pt.is_primitive
  | .inlineFragment => parentType.isSome && !pt.is_primitive

mutual

/-- The cumulative tree effect of one _traverse run, defined standalone:
every node is recursively processed and, at each node whose declaration is
emitted, each classNode child has its own children re-sorted by the
field_type call (after that child's own subtree was processed). -/
def mutateS (parentType : Option ParsedFieldType) (n : PNode) : PNode :=
  match n with
  | .mk k pt g p fs => .mk k pt g p (mutateChildren (emitsDecl parentType k pt) pt fs)

/-- Child-list part of mutateS: `emits` says whether the parent's
declaration (and with it the field_type calls on classNode children) is
reached. -/
def mutateChildren (emits : Bool) (pt : ParsedFieldType) : List PNode → List PNode
  | [] => []
  | c :: rest =>
    (let c1 := mutateS (some pt) c
     if c.kind = .classNode ∧ emits = true then sortChildFields c1 else c1)
      :: mutateChildren emits pt rest

end

mutual

/-- Per-node declaration list of a _traverse run, in emission order:
declarations of non-fragment children first, then the node's own
declaration, then declarations of fragment children. -/
def declList (parentType : Option ParsedFieldType) (n : PNode) : List String :=
  match n with
  | .mk k pt g p fs =>
    declListChildren false pt fs
      ++ [(classCodeS parentType (.mk k pt g p fs)).1]
      ++ declListChildren true pt fs

/-- Declarations contributed by the children selected by one of the two
loops of _traverse: the non-fragment children when `fragPass` is false, the
fragment children when it is true. -/
def declListChildren (fragPass : Bool) (pt : ParsedFieldType) : List PNode → List String
  | [] => []
  | c :: rest =>
    (if decide (c.kind = .inlineFragment) = fragPass then declList (some pt) c else [])
      ++ declListChildren fragPass pt rest

end

mutual

/-- Number of object-shaped (declaration-emitting) nodes in a subtree. -/
def objNodeCount (parentType : Option ParsedFieldType) (n : PNode) : Nat :=
  match n with
  | .mk k pt _ _ fs =>
    (if emitsDecl parentType k pt then 1 else 0) + objNodeCountChildren pt fs

/-- Sum of objNodeCount over a children list. -/
def objNodeCountChildren (pt : ParsedFieldType) : List PNode → Nat
  | [] => 0
  | c :: rest => objNodeCount (some pt) c + objNodeCountChildren pt rest

end

/-- Shallow observable data of a node: everything a parent's rendering
reads off it except its children's own data — variant tag, parsed type,
keys, and child count. -/
def top1 (n : PNode) : NodeKind × ParsedFieldType × String × String × Nat :=
  (n.kind, n.parsed_type, n.gql_key, n.py_key, n.fields.length)

/-- Two-level observational agreement: same shallow data, and the children
agree pairwise (in order) on their shallow data. -/
def STop (a b : PNode) : Prop :=
  top1 a = top1 b ∧ List.Forall₂ (fun x y => top1 x = top1 y) a.fields b.fields

/-! Embedding of the tree-building state of FieldToTypeMatcherVisitor.
Python nodes are mutable objects linked by parent references and fields
lists; the embedding stores them in an arena (list indexed by creation
order, the root at index 0), parent references become optional indices, and
the mutable self.parent cursor becomes an optional index in the state. -/

/-- Arena node: variant tag, parent index, child indices in selection
order, resolved type, and the two keys (meaningful on classNode). -/
structure VNode where
  kind : NodeKind
  parent : Option Nat
  fields : List Nat
  parsed_type : ParsedFieldType
  gql_key : String
  py_key : String
deriving DecidableEq, Repr

/-- Visitor state: the arena and the cursor (self.parent in the source;
none models the cursor having moved above the root). -/
structure VisitorState where
  arena : List VNode
  cursor : Option Nat
deriving DecidableEq, Repr

/-- The empty root node built in FieldToTypeMatcherVisitor.__init__:
no parent, no children, empty type names. -/
def rootVNode : VNode := ⟨.root, none, [], ⟨"", "", false⟩, "", ""⟩

/-- Initial visitor state: arena holding only the root, cursor on it. -/
def visitorStart : VisitorState := ⟨[rootVNode], some 0⟩

/-- Arena lookup with the root as the (never reached under the invariant)
out-of-range default. -/
def vArenaGet (arena : List VNode) (i : Nat) : VNode := arena.getD i rootVNode

/-- Events delivered by the graphql visit engine to the visitor's handlers,
carrying the data each enter handler computes from the AST node and the
type tracker (operation name; resolved field type and keys). -/
inductive VisitEvent where
  | enterOperation (name : String)
  | enterField (pt : ParsedFieldType) (gql_key py_key : String)
  | enterFragment (pt : ParsedFieldType)
  | leave
deriving DecidableEq, Repr

/-- Shared body of the three enter handlers: create the node with the
cursor as parent, append its index to the cursor node's fields, and move
the cursor onto it.  A missing cursor is the state in which Python would
fail on `None.fields`; it cannot arise on well-nested event sequences. -/
def enterV (st : VisitorState) (k : NodeKind) (pt : ParsedFieldType)
    (g p : String) : Option VisitorState :=
  match st.cursor with
  | none => none
  | some c =>
    let newId := st.arena.length
    let cn := vArenaGet st.arena c
    some ⟨(st.arena.set c { cn with fields := cn.fields ++ [newId] })
            ++ [⟨k, some c, [], pt, g, p⟩],
          some newId⟩

/-- Shared body of the three leave handlers:
`self.parent = self.parent.parent if self.parent else self.parent`. -/
def leaveV (st : VisitorState) : VisitorState :=
  ⟨st.arena,
   match st.cursor with
   | none => none
   | some c => (vArenaGet st.arena c).parent⟩

/-- One visitor transition.  enter_operation_definition builds the
operation's parsed type from its name exactly as the source does
(`Optional[list[<name>]]` as the wrapped form). -/
def stepV (st : VisitorState) : VisitEvent → Option VisitorState
  | .enterOperation name =>
    enterV st .operation ⟨name, "Optional[list[" ++ name ++ "]]", false⟩ "" ""
  | .enterField pt g p => enterV st .classNode pt g p
  | .enterFragment pt => enterV st .inlineFragment pt "" ""
  | .leave => some (leaveV st)

/-- The visitor run over a whole event sequence, from the initial state. -/
def runV (events : List VisitEvent) : Option VisitorState :=
  events.foldlM stepV visitorStart

/-- Structural invariant of reachable visitor states: the root sits at
index 0 with no parent and empty type names; every non-root node's parent
reference points below it and the node is registered in that parent's
fields; every fields entry points to an in-range non-root node created
after its parent and linking back to it; fields lists have no duplicates;
the cursor, when set, is in range. -/
def VisitorWF (st : VisitorState) : Prop :=
  0 < st.arena.length
  ∧ (vArenaGet st.arena 0).parent = none
  ∧ (vArenaGet st.arena 0).kind = .root
  ∧ (vArenaGet st.arena 0).parsed_type = ⟨"", "", false⟩
  ∧ (∀ i, i < st.arena.length → i ≠ 0 →
      ∃ q, (vArenaGet st.arena i).parent = some q ∧ q < i
        ∧ i ∈ (vArenaGet st.arena q).fields)
  ∧ (∀ q, q < st.arena.length → ∀ j ∈ (vArenaGet st.arena q).fields,
      j < st.arena.length ∧ j ≠ 0 ∧ q < j ∧ (vArenaGet st.arena j).parent = some q)
  ∧ (∀ q, q < st.arena.length → (vArenaGet st.arena q).fields.Nodup)
  ∧ (∀ c, st.cursor = some c → c < st.arena.length)

/-! Concrete IR trees used as test vectors by the theorems below.  They are
the trees the visitor builds for small queries; exQ is the IR of
`query Q { a { b { c } } }` against a schema in which a and b resolve to
object types and c to a scalar. -/

/-- Parsed type of the scalar leaf c. -/
def exPtC : ParsedFieldType := ⟨"str", "Optional[str]", true⟩

/-- Parsed type of field b (object type named BV1 after name derivation). -/
def exPtB : ParsedFieldType := ⟨"BV1", "Optional[BV1]", false⟩

/-- Parsed type of field a (object type named AV1 after name derivation). -/
def exPtA : ParsedFieldType := ⟨"AV1", "Optional[AV1]", false⟩

/-- Parsed type of operation Q as enter_operation_definition builds it. -/
def exPtQ : ParsedFieldType := ⟨"Q", "Optional[list[Q]]", false⟩

/-- Leaf node for c. -/
def exNodeC : PNode := .mk .classNode exPtC "c" "c" []

/-- Node for b, containing c. -/
def exNodeB : PNode := .mk .classNode exPtB "b" "b" [exNodeC]

/-- Node for a, containing b. -/
def exNodeA : PNode := .mk .classNode exPtA "a" "a" [exNodeB]

/-- Operation node for Q, containing a. -/
def exNodeQ : PNode := .mk .operation exPtQ "" "" [exNodeA]

/-- Root node of the example tree. -/
def exRootQ : PNode := .mk .root ⟨"", "", false⟩ "" "" [exNodeQ]

/-- A scalar-typed leaf with key b1 (no children). -/
def mutB1 : PNode := .mk .classNode ⟨"str", "Optional[str]", true⟩ "b1" "b1" []

/-- A scalar-typed leaf with key c. -/
def mutC : PNode := .mk .classNode ⟨"str", "Optional[str]", true⟩ "c" "c" []

/-- An object-typed node with key b2 holding one child, so that its child
count exceeds b1's. -/
def mutB2 : PNode := .mk .classNode ⟨"B2V1", "Optional[B2V1]", false⟩ "b2" "b2" [mutC]

/-- An object-typed node whose children [b1, b2] are not sorted by
descending child count: rendering re-sorts them to [b2, b1]. -/
def mutA : PNode := .mk .classNode ⟨"AV1", "Optional[AV1]", false⟩ "a" "a" [mutB1, mutB2]

/-- Operation node above mutA. -/
def mutQ : PNode := .mk .operation ⟨"Q", "Optional[list[Q]]", false⟩ "" "" [mutA]

/-- Root of the mutation test vector. -/
def mutRoot : PNode := .mk .root ⟨"", "", false⟩ "" "" [mutQ]

/-- Wire keys of a node's children, in order: a projection under which the
in-place re-sort performed by rendering is visible. -/
def childGqlKeys (n : PNode) : List String := n.fields.map PNode.gql_key

/-- The node reached from a root by taking the first child twice (the a
node in the mutation test vector). -/
def firstFirstChild (t : PNode) : PNode :=
  ((t.fields.getD 0 default).fields.getD 0 default)

/-- Visit-event sequence of the query `query Q { x }` with x a scalar
field. -/
def exEvents : List VisitEvent :=
  [.enterOperation "Q", .enterField ⟨"str", "Optional[str]", true⟩ "x" "x",
   .leave, .leave]

/-- The visitor state runV produces on exEvents. -/
def exVState : VisitorState :=
  ⟨[⟨.root, none, [1], ⟨"", "", false⟩, "", ""⟩,
    ⟨.operation, some 0, [2], ⟨"Q", "Optional[list[Q]]", false⟩, "", ""⟩,
    ⟨.classNode, some 1, [], ⟨"str", "Optional[str]", true⟩, "x", "x"⟩],
   some 0⟩

/-! Theorems.  Helper lemmas come first inside each group, the claim
theorems and their witnesses close each group. -/

/-- C3: for every well-formed wrapped schema output type, Unwrapper.unwrap
returns a wrapper stack (ordered outermost-first) whose reapplication
around the reported innermost type reconstructs the original wrapped-type
shape, and is_primitive equals the innermost type being a scalar. -/
theorem unwrap_roundTrip : ∀ t : GqlType, t.wellFormed = true →
    rebuild (unwrap t).wrapper_stack (unwrap t).inner_gql_type = t
    ∧ (unwrap t).is_primitive = (unwrap t).inner_gql_type.isScalar
  | .scalar s, _ => by simp [unwrap, rebuild]
  | .object s, _ => by simp [unwrap, rebuild, GqlType.isScalar]
  | .nonNull (.scalar s), _ => by simp [unwrap, rebuild]
  | .nonNull (.object s), _ => by simp [unwrap, rebuild, GqlType.isScalar]
  | .nonNull (.nonNull u), h => by simp [GqlType.wellFormed] at h
  | .nonNull (.listT e), h => by
    have he : e.wellFormed = true := by
      simpa [GqlType.wellFormed] using h
    have ih := unwrap_roundTrip e he
    simp only [unwrap, rebuild]
    exact ⟨by rw [ih.1], ih.2⟩
  | .listT e, h => by
    have he : e.wellFormed = true := by
      simpa [GqlType.wellFormed] using h
    have ih := unwrap_roundTrip e he
    simp only [unwrap, rebuild]
    exact ⟨by rw [ih.1], ih.2⟩

/-- Witness for unwrap_roundTrip at the concrete type
non-null list of non-null String. -/
theorem unwrap_roundTrip_witness :
    GqlType.wellFormed (.nonNull (.listT (.nonNull (.scalar "String")))) = true
    ∧ (rebuild (unwrap (.nonNull (.listT (.nonNull (.scalar "String"))))).wrapper_stack
         (unwrap (.nonNull (.listT (.nonNull (.scalar "String"))))).inner_gql_type
        = .nonNull (.listT (.nonNull (.scalar "String")))
      ∧ (unwrap (.nonNull (.listT (.nonNull (.scalar "String"))))).is_primitive
        = (unwrap (.nonNull (.listT (.nonNull (.scalar "String"))))).inner_gql_type.isScalar) :=
  ⟨by decide, unwrap_roundTrip _ (by decide)⟩

/-- C6: _parse_type rewraps the resolved bottom type according to the two
flags — Optional[list[...]] when both optional and list are set (that case
checked first), Optional[...] when only optional, list[...] when only
list, and bare otherwise. -/
theorem parseType_rewraps (toPy : GqlType → String) (t : GqlType) :
    (parseType toPy t).wrapped_python_type =
      (if optFlag t && listFlag t then
         "Optional[list[" ++ bottomWrapped toPy (coreType t) ++ "]]"
       else if optFlag t then
         "Optional[" ++ bottomWrapped toPy (coreType t) ++ "]"
       else if listFlag t then
         "list[" ++ bottomWrapped toPy (coreType t) ++ "]"
       else
         bottomWrapped toPy (coreType t)) := by
  match t with
  | .nonNull (.listT u) =>
    by_cases hw : u.isWrapper = true
    · simp [parseType, optFlag, listFlag, GqlType.isListT, coreType, bottomWrapped,
        rewrapFlags, hw]
    · simp [parseType, optFlag, listFlag, GqlType.isListT, coreType, bottomWrapped,
        rewrapFlags, hw]
  | .nonNull (.nonNull u) =>
    by_cases hw : GqlType.isWrapper (.nonNull u) = true
    · simp [parseType, optFlag, listFlag, GqlType.isListT, coreType, bottomWrapped,
        rewrapFlags, hw]
    · simp [GqlType.isWrapper] at hw
  | .nonNull (.scalar s) =>
    simp [parseType, optFlag, listFlag, GqlType.isListT, coreType, bottomWrapped,
      rewrapFlags, GqlType.isWrapper]
  | .nonNull (.object s) =>
    simp [parseType, optFlag, listFlag, GqlType.isListT, coreType, bottomWrapped,
      rewrapFlags, GqlType.isWrapper]
  | .listT u =>
    by_cases hw : u.isWrapper = true
    · simp [parseType, optFlag, listFlag, GqlType.isListT, coreType, bottomWrapped,
        rewrapFlags, hw]
    · simp [parseType, optFlag, listFlag, GqlType.isListT, coreType, bottomWrapped,
        rewrapFlags, hw]
  | .scalar s =>
    simp [parseType, optFlag, listFlag, GqlType.isListT, coreType, bottomWrapped,
      rewrapFlags, GqlType.isWrapper]
  | .object s =>
    simp [parseType, optFlag, listFlag, GqlType.isListT, coreType, bottomWrapped,
      rewrapFlags, GqlType.isWrapper]

/-- C5: QueryParser.parse raises AnonymousQueryError when the primary
operation is present and unnamed (before validation runs — the first
conjunct holds for every validation-error list), raises InvalidQueryError
carrying the full validation error list otherwise when validation fails,
and on failure returns no IR. -/
theorem queryParserParse_errors (op : Option OpInfo) (errs : List String) (t : PNode) :
    (∀ o, op = some o → o.name = none →
       queryParserParse op errs t = Except.error QueryParseError.anonymousQuery)
    ∧ ((∀ o, op = some o → o.name ≠ none) → errs ≠ [] →
       queryParserParse op errs t = Except.error (QueryParseError.invalidQuery errs))
    ∧ (∀ e, queryParserParse op errs t = Except.error e →
       ∀ t2, queryParserParse op errs t ≠ Except.ok t2) := by
  refine ⟨?_, ?_, ?_⟩
  · intro o ho hn
    subst ho
    simp [queryParserParse, hn, Option.isNone]
  · intro hnamed herrs
    match op with
    | none => simp [queryParserParse, herrs]
    | some o =>
      have := hnamed o rfl
      match hn : o.name with
      | none => exact absurd hn this
      | some nm => simp [queryParserParse, hn, herrs]
  · intro e he t2 hok
    rw [he] at hok
    exact Except.noConfusion hok

/-- Witness for queryParserParse_errors: an unnamed operation with a
pending validation error raises the anonymous error; a missing operation
with a validation error raises the invalid error with the full list. -/
theorem queryParserParse_errors_witness :
    queryParserParse (some ⟨none⟩) ["bad field"] default
      = Except.error QueryParseError.anonymousQuery
    ∧ queryParserParse none ["bad field"] default
      = Except.error (QueryParseError.invalidQuery ["bad field"]) :=
  ⟨(queryParserParse_errors (some ⟨none⟩) ["bad field"] default).1 ⟨none⟩ rfl rfl,
   (queryParserParse_errors none ["bad field"] default).2.1 (by simp) (by simp)⟩

/-- C4: evaluation of the deduplication logic at the failing input.  Three
sibling fields of the same schema type Users_v1 under an operation named q:
the first call yields UsersV1, the second yields q_UsersV1, and the third —
with the ancestor chain exhausted at the root while the candidate is still
cached — yields q_UsersV1 again, so two distinct nodes receive the same
class name and the uniqueness invariant fails. -/
theorem dedup_uniqueness_failure :
    (toPythonTypeObject ["q"]
        (toPythonTypeObject ["q"]
          (toPythonTypeObject ["q"] [] "Users_v1").2 "Users_v1").2 "Users_v1").1
      = (toPythonTypeObject ["q"]
          (toPythonTypeObject ["q"] [] "Users_v1").2 "Users_v1").1
    ∧ (toPythonTypeObject ["q"]
          (toPythonTypeObject ["q"] [] "Users_v1").2 "Users_v1").1
        ≠ (toPythonTypeObject ["q"] [] "Users_v1").1
    ∧ (toPythonTypeObject ["q"]
          (toPythonTypeObject ["q"] [] "Users_v1").2 "Users_v1").1
        ∈ (toPythonTypeObject ["q"]
            (toPythonTypeObject ["q"]
              (toPythonTypeObject ["q"] [] "Users_v1").2 "Users_v1").2 "Users_v1").2 := by
  decide

/-- C7 counterexample: for the schema type string Users_v1, the code does
not produce the claimed "string form minus its last two characters,
followed by V and the original last character" (which would be Users_V1):
it first removes every underscore and yields UsersV1. -/
theorem baseClassName_claim_counterexample :
    baseClassName "Users_v1"
      ≠ pyDropLast2 "Users_v1" ++ "V" ++ pyLastChar "Users_v1" := by
  decide

/-- C7 as amended: the generated class name before deduplication is
obtained from the schema type's string form by first removing every
underscore and then stripping the last two characters of the result and
appending V followed by that result's last character (for type strings
whose underscore-free form is non-empty; on an empty form the source would
fail on the index access). -/
theorem baseClassName_amended (s : String) (_h : pyReplace s "_" "" ≠ "") :
    baseClassName s =
      pyDropLast2 (pyReplace s "_" "") ++ "V" ++ pyLastChar (pyReplace s "_" "") := rfl

/-- Witness for baseClassName_amended at the type string Users_v1. -/
theorem baseClassName_amended_witness :
    pyReplace "Users_v1" "_" "" ≠ ""
    ∧ baseClassName "Users_v1" =
        pyDropLast2 (pyReplace "Users_v1" "_" "") ++ "V"
          ++ pyLastChar (pyReplace "Users_v1" "_" "") :=
  ⟨by decide, baseClassName_amended "Users_v1" (by decide)⟩

/-- Inserting into the stable descending sort is a permutation. -/
theorem orderedInsertDesc_perm (a : PNode) :
    ∀ l : List PNode, List.Perm (orderedInsertDesc a l) (a :: l)
  | [] => by simp [orderedInsertDesc]
  | b :: l => by
    by_cases hb : b.numFields ≤ a.numFields
    · simp [orderedInsertDesc, hb]
    · simp only [orderedInsertDesc, hb, if_false]
      exact List.Perm.trans (List.Perm.cons b (orderedInsertDesc_perm a l))
        (List.Perm.swap a b l)

/-- The stable descending sort is a permutation of its input. -/
theorem pySortDesc_perm : ∀ l : List PNode, List.Perm (pySortDesc l) l
  | [] => List.Perm.refl []
  | a :: l =>
    List.Perm.trans (orderedInsertDesc_perm a (pySortDesc l))
      (List.Perm.cons a (pySortDesc_perm l))

/-- The union-collection loop returns the empty list exactly when no
inline-fragment child is present. -/
theorem collectUnions_eq_nil : ∀ l : List PNode,
    collectUnions l = [] ↔ ∀ f ∈ l, ¬f.kind = .inlineFragment
  | [] => by simp [collectUnions]
  | f :: rest => by
    by_cases hf : f.kind = .inlineFragment
    · simp [collectUnions, hf]
    · simp [collectUnions, hf, collectUnions_eq_nil rest]

/-- The union-collection loop is the filterMap of fragment names. -/
theorem collectUnions_eq_filterMap : ∀ l : List PNode,
    collectUnions l = l.filterMap fun f =>
      if f.kind = .inlineFragment then some f.parsed_type.unwrapped_python_type
      else none
  | [] => rfl
  | f :: rest => by
    by_cases hf : f.kind = .inlineFragment
    · simp [collectUnions, hf, collectUnions_eq_filterMap rest]
    · simp [collectUnions, hf, collectUnions_eq_filterMap rest]

/-- C2: when a Class node has at least one inline-fragment child, its
emitted field type is obtained by stably sorting the children by descending
child count, collecting the fragment children's class names in that order,
appending the node's own unwrapped name last, and substituting the
Union[...] of that list for the unwrapped name inside the wrapped
expression; without fragment children the field type is the wrapped
expression unchanged. -/
theorem fieldType_unionSubstitution (n : PNode) :
    ((n.fields.any fun f => decide (f.kind = .inlineFragment)) = true →
      (fieldTypeS n).1 =
        pyReplace n.parsed_type.wrapped_python_type n.parsed_type.unwrapped_python_type
          ("Union["
            ++ pyJoin ", "
              (((pySortDesc n.fields).filterMap fun f =>
                  if f.kind = .inlineFragment then
                    some f.parsed_type.unwrapped_python_type
                  else none)
                ++ [n.parsed_type.unwrapped_python_type])
            ++ "]"))
    ∧ ((n.fields.any fun f => decide (f.kind = .inlineFragment)) = false →
      (fieldTypeS n).1 = n.parsed_type.wrapped_python_type) := by
  constructor
  · intro hfrag
    obtain ⟨f, hfmem, hfkind⟩ := by simpa using hfrag
    have hne : ¬collectUnions (pySortDesc n.fields) = [] := by
      rw [collectUnions_eq_nil]
      intro hall
      exact hall f ((pySortDesc_perm n.fields).mem_iff.mpr hfmem) hfkind
    rw [collectUnions_eq_filterMap] at hne
    simp only [fieldTypeS, collectUnions_eq_filterMap]
    rw [if_neg hne]
  · intro hnone
    have hall : ∀ f ∈ n.fields, ¬f.kind = .inlineFragment := by
      simpa using hnone
    have hnil : collectUnions (pySortDesc n.fields) = [] := by
      rw [collectUnions_eq_nil]
      intro f hf
      exact hall f ((pySortDesc_perm n.fields).mem_iff.mp hf)
    simp only [fieldTypeS, hnil, if_true]

/-- Witness for fieldType_unionSubstitution on a pet-like node with two
fragment children (and on a fragment-free node for the second conjunct). -/
theorem fieldType_unionSubstitution_witness :
    ((PNode.mk .classNode ⟨"PetV1", "Optional[PetV1]", false⟩ "pet" "pet"
        [.mk .inlineFragment ⟨"DogV1", "DogV1", false⟩ "" ""
           [.mk .classNode ⟨"str", "str", true⟩ "bark" "bark" []],
         .mk .inlineFragment ⟨"CatV1", "CatV1", false⟩ "" "" []]).fields.any
      (fun f => decide (f.kind = .inlineFragment))) = true
    ∧ (fieldTypeS (PNode.mk .classNode ⟨"PetV1", "Optional[PetV1]", false⟩ "pet" "pet"
        [.mk .inlineFragment ⟨"DogV1", "DogV1", false⟩ "" ""
           [.mk .classNode ⟨"str", "str", true⟩ "bark" "bark" []],
         .mk .inlineFragment ⟨"CatV1", "CatV1", false⟩ "" "" []])).1 =
        pyReplace "Optional[PetV1]" "PetV1"
          ("Union["
            ++ pyJoin ", "
              ((([.mk .inlineFragment ⟨"DogV1", "DogV1", false⟩ "" ""
                    [.mk .classNode ⟨"str", "str", true⟩ "bark" "bark" []],
                  .mk .inlineFragment ⟨"CatV1", "CatV1", false⟩ "" "" []] :
                    List PNode).filterMap fun f =>
                  if f.kind = .inlineFragment then
                    some f.parsed_type.unwrapped_python_type
                  else none)
                ++ ["PetV1"])
            ++ "]") := by
  constructor
  · decide
  · have h := (fieldType_unionSubstitution
      (PNode.mk .classNode ⟨"PetV1", "Optional[PetV1]", false⟩ "pet" "pet"
        [.mk .inlineFragment ⟨"DogV1", "DogV1", false⟩ "" ""
           [.mk .classNode ⟨"str", "str", true⟩ "bark" "bark" []],
         .mk .inlineFragment ⟨"CatV1", "CatV1", false⟩ "" "" []])).1 (by decide)
    rw [h]
    rfl

/-- Variant tags agree under top1 agreement. -/
theorem top1_kind {a b : PNode} (h : top1 a = top1 b) : a.kind = b.kind :=
  congrArg Prod.fst h

/-- Parsed types agree under top1 agreement. -/
theorem top1_pt {a b : PNode} (h : top1 a = top1 b) : a.parsed_type = b.parsed_type :=
  congrArg (fun z => z.2.1) h

/-- Wire keys agree under top1 agreement. -/
theorem top1_gql {a b : PNode} (h : top1 a = top1 b) : a.gql_key = b.gql_key :=
  congrArg (fun z => z.2.2.1) h

/-- Python keys agree under top1 agreement. -/
theorem top1_py {a b : PNode} (h : top1 a = top1 b) : a.py_key = b.py_key :=
  congrArg (fun z => z.2.2.2.1) h

/-- Child counts agree under top1 agreement. -/
theorem top1_len {a b : PNode} (h : top1 a = top1 b) : a.fields.length = b.fields.length :=
  congrArg (fun z => z.2.2.2.2) h

/-- top1 agreement from its components. -/
theorem top1_ext {a b : PNode} (hk : a.kind = b.kind) (hpt : a.parsed_type = b.parsed_type)
    (hg : a.gql_key = b.gql_key) (hp : a.py_key = b.py_key)
    (hl : a.fields.length = b.fields.length) : top1 a = top1 b := by
  simp [top1, hk, hpt, hg, hp, hl]

/-- Child counts agree under top1 agreement (numFields form). -/
theorem numFields_eq_of_top1 {a b : PNode} (h : top1 a = top1 b) :
    a.numFields = b.numFields := top1_len h

/-- The stable sort keeps the list length. -/
theorem pySortDesc_length (l : List PNode) : (pySortDesc l).length = l.length :=
  (pySortDesc_perm l).length_eq

/-- Re-sorting a node's children preserves its shallow data. -/
theorem sortChildFields_top1 (n : PNode) : top1 (sortChildFields n) = top1 n := by
  cases n with
  | mk k pt g p fs =>
    exact top1_ext rfl rfl rfl rfl (pySortDesc_length fs)

/-- STop is reflexive. -/
theorem STop_refl (n : PNode) : STop n n :=
  ⟨rfl, List.forall₂_same.mpr fun _ _ => rfl⟩

/-- Ordered insertion respects pairwise top1 agreement. -/
theorem orderedInsertDesc_respects {a a' : PNode} (ha : top1 a = top1 a')
    {l l' : List PNode} (h : List.Forall₂ (fun x y => top1 x = top1 y) l l') :
    List.Forall₂ (fun x y => top1 x = top1 y)
      (orderedInsertDesc a l) (orderedInsertDesc a' l') := by
  induction h with
  | nil =>
    simp only [orderedInsertDesc]
    exact List.Forall₂.cons ha List.Forall₂.nil
  | @cons b b' t t' hb hrest ih =>
    by_cases hle : b.numFields ≤ a.numFields
    · have hle' : b'.numFields ≤ a'.numFields := by
        rw [← numFields_eq_of_top1 hb, ← numFields_eq_of_top1 ha]
        exact hle
      simp only [orderedInsertDesc, if_pos hle, if_pos hle']
      exact List.Forall₂.cons ha (List.Forall₂.cons hb hrest)
    · have hle' : ¬b'.numFields ≤ a'.numFields := by
        rw [← numFields_eq_of_top1 hb, ← numFields_eq_of_top1 ha]
        exact hle
      simp only [orderedInsertDesc, if_neg hle, if_neg hle']
      exact List.Forall₂.cons hb ih

/-- The stable sort respects pairwise top1 agreement. -/
theorem pySortDesc_respects {l l' : List PNode}
    (h : List.Forall₂ (fun x y => top1 x = top1 y) l l') :
    List.Forall₂ (fun x y => top1 x = top1 y) (pySortDesc l) (pySortDesc l') := by
  induction h with
  | nil => exact List.Forall₂.nil
  | @cons b b' t t' hb hrest ih =>
    simp only [pySortDesc]
    exact orderedInsertDesc_respects hb ih

/-- The union-collection loop reads only shallow data. -/
theorem collectUnions_respects {l l' : List PNode}
    (h : List.Forall₂ (fun x y => top1 x = top1 y) l l') :
    collectUnions l = collectUnions l' := by
  induction h with
  | nil => rfl
  | @cons f f' t t' hf hrest ih =>
    by_cases hk : f.kind = .inlineFragment
    · have hk' : f'.kind = .inlineFragment := (top1_kind hf) ▸ hk
      simp [collectUnions, hk, hk', top1_pt hf, ih]
    · have hk' : ¬f'.kind = .inlineFragment := (top1_kind hf) ▸ hk
      simp [collectUnions, hk, hk', ih]

/-- The field-type string of a node reads only its shallow data and its
children's shallow data. -/
theorem fieldTypeS_fst_respects {c d : PNode} (h : STop c d) :
    (fieldTypeS c).1 = (fieldTypeS d).1 := by
  have hu : collectUnions (pySortDesc c.fields) = collectUnions (pySortDesc d.fields) :=
    collectUnions_respects (pySortDesc_respects h.2)
  simp only [fieldTypeS, hu, top1_pt h.1]

/-- The updated node of a field_type call is the node with its children
re-sorted. -/
theorem fieldTypeS_snd (c : PNode) : (fieldTypeS c).2 = sortChildFields c := by
  cases c
  rfl

/-- The field lines read only the children's shallow data and their own
children's shallow data. -/
theorem fieldLinesS_fst_respects {l l' : List PNode}
    (h : List.Forall₂ STop l l') : (fieldLinesS l).1 = (fieldLinesS l').1 := by
  induction h with
  | nil => rfl
  | @cons f f' t t' hf hrest ih =>
    by_cases hk : f.kind = .classNode
    · have hk' : f'.kind = .classNode := (top1_kind hf.1) ▸ hk
      simp [fieldLinesS, hk, hk', fieldLineStr, top1_py hf.1, top1_gql hf.1,
        fieldTypeS_fst_respects hf, ih]
    · have hk' : ¬f'.kind = .classNode := (top1_kind hf.1) ▸ hk
      simp [fieldLinesS, hk, hk', ih]

/-- Closed form of the field-line loop's node updates: classNode children
get their own children re-sorted, other children are untouched. -/
theorem fieldLinesS_snd_map : ∀ l : List PNode,
    (fieldLinesS l).2 = l.map fun f =>
      if f.kind = .classNode then sortChildFields f else f
  | [] => rfl
  | f :: rest => by
    by_cases hk : f.kind = .classNode
    · simp [fieldLinesS, hk, fieldTypeS_snd, fieldLinesS_snd_map rest]
    · simp [fieldLinesS, hk, fieldLinesS_snd_map rest]

/-- Closed form of the node update performed by class_code_string: when the
declaration is emitted the children pass through the field-line loop,
otherwise they are untouched. -/
theorem classCodeS_snd (p : Option ParsedFieldType) (k : NodeKind)
    (pt : ParsedFieldType) (g q : String) (fs : List PNode) :
    (classCodeS p (.mk k pt g q fs)).2 = .mk k pt g q
      (if emitsDecl p k pt = true then (fieldLinesS fs).2 else fs) := by
  cases k with
  | root => rfl
  | operation => rfl
  | classNode =>
    by_cases hp : pt.is_primitive
    · simp only [classCodeS, PNode.kind, PNode.parsed_type, hp, if_true, emitsDecl,
        Bool.not_true, Bool.false_eq_true, if_false]
    · simp only [classCodeS, PNode.kind, PNode.parsed_type, PNode.gql_key, PNode.py_key,
        PNode.fields, Bool.not_eq_true] at *
      simp [classCodeS, PNode.kind, PNode.parsed_type, PNode.gql_key, PNode.py_key,
        PNode.fields, emitsDecl, hp]
  | inlineFragment =>
    cases p with
    | none => rfl
    | some ppt =>
      by_cases hp : pt.is_primitive
      · simp [classCodeS, PNode.kind, PNode.parsed_type, emitsDecl, hp]
      · simp [classCodeS, PNode.kind, PNode.parsed_type, PNode.gql_key, PNode.py_key,
          PNode.fields, emitsDecl, hp]

/-- The declaration string reads only the node's shallow data, its
children's shallow data, and its grandchildren's shallow data. -/
theorem classCodeS_fst_respects (p : Option ParsedFieldType) {a b : PNode}
    (h1 : top1 a = top1 b) (hf : List.Forall₂ STop a.fields b.fields) :
    (classCodeS p a).1 = (classCodeS p b).1 := by
  cases a with
  | mk ka pta ga pa fsa =>
    cases b with
    | mk kb ptb gb pb fsb =>
      have hk : ka = kb := top1_kind h1
      have hpt : pta = ptb := top1_pt h1
      subst hk
      subst hpt
      have hfl : (fieldLinesS fsa).1 = (fieldLinesS fsb).1 := fieldLinesS_fst_respects hf
      cases ka with
      | root => rfl
      | operation =>
        simp [classCodeS, PNode.kind, PNode.parsed_type, PNode.fields, hfl]
      | classNode =>
        by_cases hp : pta.is_primitive
        · simp [classCodeS, PNode.kind, PNode.parsed_type, hp]
        · simp [classCodeS, PNode.kind, PNode.parsed_type, PNode.fields, hp, hfl]
      | inlineFragment =>
        cases p with
        | none => rfl
        | some ppt =>
          by_cases hp : pta.is_primitive
          · simp [classCodeS, PNode.kind, PNode.parsed_type, hp]
          · simp [classCodeS, PNode.kind, PNode.parsed_type, PNode.fields, hp, hfl]

/-- The child-list traversal is the map of the node traversal. -/
theorem travList_eq_map (pt : ParsedFieldType) : ∀ l : List PNode,
    travList pt l = l.map fun c => traverseS (some pt) c
  | [] => rfl
  | c :: rest => by
    simp only [travList, travList_eq_map pt rest, List.map]

/-- Unfolding equation of mutateS at a constructor. -/
theorem mutateS_mk (p : Option ParsedFieldType) (k : NodeKind) (pt : ParsedFieldType)
    (g q : String) (fs : List PNode) :
    mutateS p (.mk k pt g q fs) = .mk k pt g q (mutateChildren (emitsDecl p k pt) pt fs) :=
  rfl

/-- mutateS never changes a node's variant tag. -/
theorem mutateS_kind (p : Option ParsedFieldType) (n : PNode) :
    (mutateS p n).kind = n.kind := by
  cases n
  rfl

/-- Key list computation: the children produced by one _traverse step (its
three phases composed) equal the mutateChildren closed form, given that
each child's own traversal result is its mutateS image. -/
theorem fields3_eq (e : Bool) (pt : ParsedFieldType) :
    ∀ (l : List PNode) (res : List (String × PNode)),
      List.Forall₂ (fun c r => (r : String × PNode).2 = mutateS (some pt) c) l res →
      List.zipWith
        (fun a cr =>
          if (cr : PNode × (String × PNode)).1.kind = .inlineFragment then cr.2.2 else a)
        (if e = true then
           (fieldLinesS ((l.zip res).map fun cr =>
             if cr.1.kind = .inlineFragment then cr.1 else cr.2.2)).2
         else
           (l.zip res).map fun cr =>
             if cr.1.kind = .inlineFragment then cr.1 else cr.2.2)
        (l.zip res)
      = mutateChildren e pt l := by
  intro l res h
  induction h with
  | nil => cases e <;> rfl
  | @cons c r l' res' hcr hrest ih =>
    by_cases hfrag : c.kind = .inlineFragment
    · cases e with
      | false =>
        simp only [List.zip_cons_cons, List.map_cons, if_pos hfrag, List.zipWith_cons_cons,
          mutateChildren, Bool.false_eq_true, and_false, if_false, List.cons.injEq]
        refine And.intro hcr ?_
        simpa using ih
      | true =>
        have hnc : ¬c.kind = .classNode := by
          rw [hfrag]
          intro hcc
          exact NodeKind.noConfusion hcc
        simp only [List.zip_cons_cons, List.map_cons, if_pos hfrag, fieldLinesS,
          if_neg hnc, if_true, List.zipWith_cons_cons, mutateChildren, and_true,
          if_neg hnc, List.cons.injEq]
        refine And.intro hcr ?_
        simpa using ih
    · by_cases hclass : c.kind = .classNode
      · cases e with
        | false =>
          simp only [List.zip_cons_cons, List.map_cons, if_neg hfrag,
            List.zipWith_cons_cons, mutateChildren, Bool.false_eq_true, and_false, if_false,
            List.cons.injEq]
          refine And.intro hcr ?_
          simpa using ih
        | true =>
          have hkr : (r.2).kind = .classNode := by
            rw [hcr, mutateS_kind]
            exact hclass
          simp only [List.zip_cons_cons, List.map_cons, if_neg hfrag, fieldLinesS,
            if_pos hkr, fieldTypeS_snd, if_true, List.zipWith_cons_cons, if_neg hfrag,
            mutateChildren, and_true, if_pos hclass, List.cons.injEq]
          refine And.intro (congrArg sortChildFields hcr) ?_
          simpa using ih
      · cases e with
        | false =>
          simp only [List.zip_cons_cons, List.map_cons, if_neg hfrag,
            List.zipWith_cons_cons, mutateChildren, Bool.false_eq_true, and_false, if_false,
            List.cons.injEq]
          refine And.intro hcr ?_
          simpa using ih
        | true =>
          have hkr : ¬(r.2).kind = .classNode := by
            rw [hcr, mutateS_kind]
            exact hclass
          simp only [List.zip_cons_cons, List.map_cons, if_neg hfrag, fieldLinesS,
            if_neg hkr, if_true, List.zipWith_cons_cons, if_neg hfrag, mutateChildren,
            and_true, if_neg hclass, List.cons.injEq]
          refine And.intro hcr ?_
          simpa using ih

/-- Unfolding equation of traverseS at a constructor. -/
theorem traverseS_mk (p : Option ParsedFieldType) (k : NodeKind) (pt : ParsedFieldType)
    (g q : String) (fs : List PNode) :
    traverseS p (.mk k pt g q fs) =
      (strConcat ((fs.zip (travList pt fs)).map fun cr =>
          if cr.1.kind = .inlineFragment then "" else cr.2.1)
        ++ (classCodeS p (.mk k pt g q ((fs.zip (travList pt fs)).map fun cr =>
              if cr.1.kind = .inlineFragment then cr.1 else cr.2.2))).1
        ++ strConcat ((fs.zip (travList pt fs)).map fun cr =>
          if cr.1.kind = .inlineFragment then cr.2.1 else ""),
       .mk k pt g q (List.zipWith
         (fun a cr =>
           if (cr : PNode × (String × PNode)).1.kind = .inlineFragment then cr.2.2 else a)
         (classCodeS p (.mk k pt g q ((fs.zip (travList pt fs)).map fun cr =>
            if cr.1.kind = .inlineFragment then cr.1 else cr.2.2))).2.fields
         (fs.zip (travList pt fs)))) := rfl

mutual

/-- The state returned by the renderer equals the standalone mutateS
transformation: the only tree effect of rendering is the field_type
sorts. -/
theorem traverseS_snd_mut : ∀ (p : Option ParsedFieldType) (n : PNode),
    (traverseS p n).2 = mutateS p n
  | p, .mk k pt g q fs => by
    have h := travList_snd_mut pt fs
    rw [traverseS_mk, mutateS_mk]
    rw [classCodeS_snd]
    simp only [PNode.fields]
    exact congrArg (PNode.mk k pt g q)
      (fields3_eq (emitsDecl p k pt) pt fs (travList pt fs) h)

/-- Pointwise form of traverseS_snd_mut over a children list. -/
theorem travList_snd_mut : ∀ (pt : ParsedFieldType) (l : List PNode),
    List.Forall₂ (fun c r => (r : String × PNode).2 = mutateS (some pt) c) l (travList pt l)
  | _, [] => List.Forall₂.nil
  | pt, c :: rest =>
    List.Forall₂.cons (traverseS_snd_mut (some pt) c) (travList_snd_mut pt rest)

end


mutual

/-- The rendering mutation preserves each node's shallow data and its
children's shallow data (in order). -/
theorem mutateS_STop : ∀ (p : Option ParsedFieldType) (n : PNode), STop (mutateS p n) n
  | p, .mk k pt g q fs => by
    have h := mutateChildren_top1 (emitsDecl p k pt) pt fs
    constructor
    · exact top1_ext rfl rfl rfl rfl h.length_eq
    · exact h

/-- Children lists keep their pointwise shallow data under the rendering
mutation. -/
theorem mutateChildren_top1 : ∀ (e : Bool) (pt : ParsedFieldType) (l : List PNode),
    List.Forall₂ (fun x y => top1 x = top1 y) (mutateChildren e pt l) l
  | _, _, [] => List.Forall₂.nil
  | e, pt, c :: rest => by
    have h1 : top1 (mutateS (some pt) c) = top1 c := (mutateS_STop (some pt) c).1
    refine List.Forall₂.cons ?_ (mutateChildren_top1 e pt rest)
    by_cases hc : c.kind = .classNode ∧ e = true
    · simp only [if_pos hc]
      rw [sortChildFields_top1]
      exact h1
    · simp only [if_neg hc]
      exact h1

end

/-- Zipping a list with its own map is a map of pairs. -/
theorem zip_self_map {α β : Type _} (f : α → β) :
    ∀ l : List α, l.zip (l.map f) = l.map fun c => (c, f c)
  | [] => rfl
  | c :: rest => by simp [zip_self_map f rest]

/-- strConcat distributes over list append. -/
theorem strConcat_append : ∀ l1 l2 : List String,
    strConcat (l1 ++ l2) = strConcat l1 ++ strConcat l2
  | [], l2 => rfl
  | a :: rest, l2 => by
    simp [strConcat, strConcat_append rest l2, String.append_assoc]

/-- Decomposition of one rendering step: the output text is the renders of
the non-fragment children (in order), then the node's own declaration
computed on the original node, then the renders of the fragment children
(in order). -/
theorem traverseS_fst_decomp (p : Option ParsedFieldType) (k : NodeKind)
    (pt : ParsedFieldType) (g q : String) (fs : List PNode) :
    (traverseS p (.mk k pt g q fs)).1 =
      strConcat (fs.map fun c =>
        if c.kind = .inlineFragment then "" else (traverseS (some pt) c).1)
      ++ (classCodeS p (.mk k pt g q fs)).1
      ++ strConcat (fs.map fun c =>
        if c.kind = .inlineFragment then (traverseS (some pt) c).1 else "") := by
  rw [traverseS_mk]
  simp only [travList_eq_map, zip_self_map, List.map_map, Function.comp]
  congr 1
  · congr 1
    apply classCodeS_fst_respects
    · exact top1_ext rfl rfl rfl rfl (by simp [PNode.fields])
    · simp only [PNode.fields]
      rw [List.forall₂_map_left_iff]
      rw [List.forall₂_same]
      intro c hc
      by_cases hfrag : c.kind = .inlineFragment
      · simpa [Function.comp, hfrag] using STop_refl c
      · simpa [Function.comp, hfrag, traverseS_snd_mut] using mutateS_STop (some pt) c

/-- Appending to the empty string on the left is the identity. -/
theorem str_empty_append (s : String) : "" ++ s = s := rfl

/-- Appending the empty string on the right is the identity. -/
theorem str_append_empty (s : String) : s ++ "" = s := by
  cases s with
  | mk data => show String.mk (data ++ []) = String.mk data
               rw [List.append_nil]

/-- Dropping the empty contributions of fragment children turns the
non-fragment render concatenation into a filtered map. -/
theorem strConcat_nonfrag_filter (pt : ParsedFieldType) :
    ∀ l : List PNode,
      strConcat (l.map fun c =>
        if c.kind = .inlineFragment then "" else (traverseS (some pt) c).1)
      = strConcat ((l.filter fun c => !decide (c.kind = .inlineFragment)).map
          fun c => (traverseS (some pt) c).1)
  | [] => rfl
  | c :: rest => by
    by_cases hfrag : c.kind = .inlineFragment
    · simp [hfrag, strConcat, str_empty_append, strConcat_nonfrag_filter pt rest]
    · simp [hfrag, strConcat, strConcat_nonfrag_filter pt rest]

/-- Dropping the empty contributions of non-fragment children turns the
fragment render concatenation into a filtered map. -/
theorem strConcat_frag_filter (pt : ParsedFieldType) :
    ∀ l : List PNode,
      strConcat (l.map fun c =>
        if c.kind = .inlineFragment then (traverseS (some pt) c).1 else "")
      = strConcat ((l.filter fun c => decide (c.kind = .inlineFragment)).map
          fun c => (traverseS (some pt) c).1)
  | [] => rfl
  | c :: rest => by
    by_cases hfrag : c.kind = .inlineFragment
    · simp [hfrag, strConcat, strConcat_frag_filter pt rest]
    · simp [hfrag, strConcat, str_empty_append, strConcat_frag_filter pt rest]

set_option maxRecDepth 4000 in
/-- C1: the emitter renders, at each node, all non-inline-fragment children
recursively before the node's own class declaration and all inline-fragment
children recursively after it; consequently, for the IR of
query Q { a { b { c } } }, the class backing c's container type (BV1)
appears in the output before the class backing b's container type (AV1),
which appears before QQuery, and every inline-fragment subclass declaration
appears after its parent's own declaration. -/
theorem traverse_emission_order :
    (∀ (p : Option ParsedFieldType) (n : PNode),
      (traverseS p n).1 =
        strConcat ((n.fields.filter fun c => !decide (c.kind = .inlineFragment)).map
            fun c => (traverseS (some n.parsed_type) c).1)
          ++ (classCodeS p n).1
          ++ strConcat ((n.fields.filter fun c => decide (c.kind = .inlineFragment)).map
            fun c => (traverseS (some n.parsed_type) c).1))
    ∧ (∃ u1 u2 u3 u4 : String,
        (traverseS none exRootQ).1
          = u1 ++ "class BV1" ++ u2 ++ "class AV1" ++ u3 ++ "class QQuery" ++ u4) := by
  constructor
  · intro p n
    cases n with
    | mk k pt g q fs =>
      rw [traverseS_fst_decomp]
      simp only [PNode.parsed_type, PNode.fields]
      rw [strConcat_nonfrag_filter, strConcat_frag_filter]
  · refine ⟨"\n\n\n",
      "(BaseModel):\n    c: Optional[str] = Field(..., alias=\"c\")\n\n    class Config:\n        smart_union = True\n        extra = Extra.forbid\n\n\n",
      "(BaseModel):\n    b: Optional[BV1] = Field(..., alias=\"b\")\n\n    class Config:\n        smart_union = True\n        extra = Extra.forbid\n\n\n",
      "(BaseModel):\n    a: Optional[AV1] = Field(..., alias=\"a\")\n\n    class Config:\n        smart_union = True\n        extra = Extra.forbid", ?_⟩
    decide

/-- C9 as amended: rendering is not free of tree effects — its exact effect
is the standalone mutateS transformation, which stably re-sorts the
children of each classNode child of every emitting node by descending
child count; every node's variant tag, parsed_type, keys, child count and
top-level child order are preserved (STop), but the fields sequences
themselves may be permuted, so the tree is not left exactly as
QueryParser.parse returned it. -/
theorem render_tree_effect (p : Option ParsedFieldType) (n : PNode) :
    (traverseS p n).2 = mutateS p n ∧ STop ((traverseS p n).2) n := by
  refine ⟨traverseS_snd_mut p n, ?_⟩
  rw [traverseS_snd_mut]
  exact mutateS_STop p n

/-- C9 counterexample: on a concrete tree whose classNode child a has
children [b1, b2] with child counts 0 and 1, rendering re-sorts a's fields
to [b2, b1], so the tree after _traverse differs from the tree before. -/
theorem render_mutates_counterexample :
    (traverseS none mutRoot).2 ≠ mutRoot
    ∧ childGqlKeys (firstFirstChild ((traverseS none mutRoot).2)) = ["b2", "b1"]
    ∧ childGqlKeys (firstFirstChild mutRoot) = ["b1", "b2"] := by
  refine ⟨fun h => ?_, by decide, by decide⟩
  have h2 := congrArg (fun t => childGqlKeys (firstFirstChild t)) h
  exact absurd h2 (by decide)

mutual

/-- The rendered text is the concatenation of the per-node declaration
list. -/
theorem traverseS_fst_join : ∀ (p : Option ParsedFieldType) (n : PNode),
    (traverseS p n).1 = strConcat (declList p n)
  | p, .mk k pt g q fs => by
    rw [traverseS_fst_decomp]
    simp only [declList]
    rw [strConcat_append, strConcat_append]
    rw [← travJoin_nonfrag pt fs, ← travJoin_frag pt fs]
    simp only [strConcat, str_append_empty]

/-- Non-fragment pass of the declaration list matches the first rendering
loop. -/
theorem travJoin_nonfrag : ∀ (pt : ParsedFieldType) (l : List PNode),
    strConcat (declListChildren false pt l)
      = strConcat (l.map fun c =>
          if c.kind = .inlineFragment then "" else (traverseS (some pt) c).1)
  | _, [] => rfl
  | pt, c :: rest => by
    by_cases hfrag : c.kind = .inlineFragment
    · simp [declListChildren, hfrag, strConcat, str_empty_append,
        travJoin_nonfrag pt rest]
    · simp only [declListChildren, hfrag, decide_eq_false hfrag, if_pos rfl,
        List.map_cons, if_neg hfrag, strConcat, strConcat_append,
        travJoin_nonfrag pt rest, traverseS_fst_join (some pt) c]
      simp

/-- Fragment pass of the declaration list matches the second rendering
loop. -/
theorem travJoin_frag : ∀ (pt : ParsedFieldType) (l : List PNode),
    strConcat (declListChildren true pt l)
      = strConcat (l.map fun c =>
          if c.kind = .inlineFragment then (traverseS (some pt) c).1 else "")
  | _, [] => rfl
  | pt, c :: rest => by
    by_cases hfrag : c.kind = .inlineFragment
    · simp only [declListChildren, decide_eq_true hfrag, if_pos rfl, List.map_cons,
        if_pos hfrag, strConcat, strConcat_append, travJoin_frag pt rest,
        traverseS_fst_join (some pt) c]
      simp
    · simp [declListChildren, hfrag, strConcat, str_empty_append, travJoin_frag pt rest]

end

/-- Folding appends never shrinks the accumulator. -/
theorem foldl_sep_len (sep : String) :
    ∀ (l : List String) (acc : String),
      acc.length ≤ (List.foldl (fun a x => a ++ sep ++ x) acc l).length
  | [], _ => le_refl _
  | x :: rest, acc => by
    have h1 := foldl_sep_len sep rest (acc ++ sep ++ x)
    have h2 : acc.length ≤ (acc ++ sep ++ x).length := by
      simp [String.length_append]
      omega
    exact le_trans h2 h1

/-- A declaration string (newline-join starting with the blank-line
lead-in) is never empty. -/
theorem pyJoin_decl_ne_empty (l : List String) : pyJoin "\n" ("\n\n" :: l) ≠ "" := by
  intro h
  have hlen : ("\n\n" : String).length ≤ (pyJoin "\n" ("\n\n" :: l)).length :=
    foldl_sep_len "\n" l "\n\n"
  rw [h] at hlen
  simp [String.length] at hlen

/-- class_code_string returns the empty string exactly for the nodes that
emit no declaration. -/
theorem classCodeS_fst_empty (p : Option ParsedFieldType) (k : NodeKind)
    (pt : ParsedFieldType) (g q : String) (fs : List PNode) :
    ((classCodeS p (.mk k pt g q fs)).1 = "") ↔ emitsDecl p k pt = false := by
  cases k with
  | root => simp [classCodeS, emitsDecl, PNode.kind]
  | operation =>
    simp only [classCodeS, emitsDecl, PNode.kind, PNode.parsed_type, PNode.fields]
    constructor
    · intro h
      exact absurd h (pyJoin_decl_ne_empty _)
    · intro h
      exact absurd h (by simp)
  | classNode =>
    by_cases hp : pt.is_primitive
    · simp [classCodeS, emitsDecl, PNode.kind, PNode.parsed_type, hp]
    · simp only [classCodeS, emitsDecl, PNode.kind, PNode.parsed_type, PNode.fields,
        Bool.not_eq_true] at *
      simp only [hp, if_false]
      constructor
      · intro h
        exact absurd h (pyJoin_decl_ne_empty _)
      · intro h
        simp at h
  | inlineFragment =>
    cases p with
    | none => simp [classCodeS, emitsDecl, PNode.kind]
    | some ppt =>
      by_cases hp : pt.is_primitive
      · simp [classCodeS, emitsDecl, PNode.kind, PNode.parsed_type, hp]
      · simp only [classCodeS, emitsDecl, PNode.kind, PNode.parsed_type, PNode.fields]
        simp only [hp, if_false]
        constructor
        · intro h
          exact absurd h (pyJoin_decl_ne_empty _)
        · intro h
          simp at h

mutual

/-- The number of non-empty entries of the declaration list is the number
of object-shaped nodes. -/
theorem declList_count : ∀ (p : Option ParsedFieldType) (n : PNode),
    ((declList p n).countP fun s => !(s == "")) = objNodeCount p n
  | p, .mk k pt g q fs => by
    simp only [declList, objNodeCount, List.countP_append]
    have hsingle : (([(classCodeS p (.mk k pt g q fs)).1]).countP fun s => !(s == ""))
        = if emitsDecl p k pt then 1 else 0 := by
      by_cases he : emitsDecl p k pt = true
      · have hne : ¬(classCodeS p (.mk k pt g q fs)).1 = "" := by
          intro h
          rw [(classCodeS_fst_empty p k pt g q fs).mp h] at he
          exact Bool.noConfusion he
        simp [List.countP_cons, hne, he]
      · have hemp : (classCodeS p (.mk k pt g q fs)).1 = "" :=
          (classCodeS_fst_empty p k pt g q fs).mpr (by simpa using he)
        simp [List.countP_cons, hemp, he]
    rw [hsingle]
    have hch := declListChildren_count pt fs
    omega

/-- The two passes together contribute one non-empty declaration per
object-shaped descendant. -/
theorem declListChildren_count : ∀ (pt : ParsedFieldType)
    (l : List PNode),
    ((declListChildren false pt l).countP fun s => !(s == ""))
      + ((declListChildren true pt l).countP fun s => !(s == ""))
      = objNodeCountChildren pt l
  | _, [] => rfl
  | pt, c :: rest => by
    have hc := declList_count (some pt) c
    have hrest := declListChildren_count pt rest
    by_cases hfrag : c.kind = .inlineFragment
    · simp only [declListChildren, objNodeCountChildren, List.countP_append]
      simp [hfrag]
      omega
    · simp only [declListChildren, objNodeCountChildren, List.countP_append]
      simp [hfrag]
      omega

end

/-- C8: the emitted text is exactly the concatenation of one declaration
per node, where the number of non-empty declarations equals the number of
object-shaped (deduplicated) selection nodes and primitive-only selections
contribute the empty string: a primitive classNode emits nothing, and an
inline fragment that lacks a parent or whose resolved type is primitive
emits nothing. -/
theorem generate_decl_census :
    (∀ (p : Option ParsedFieldType) (n : PNode),
       (traverseS p n).1 = strConcat (declList p n)
       ∧ ((declList p n).countP fun s => !(s == "")) = objNodeCount p n)
    ∧ (∀ (p : Option ParsedFieldType) (pt : ParsedFieldType) (g q : String)
         (fs : List PNode), pt.is_primitive = true →
           (classCodeS p (.mk .classNode pt g q fs)).1 = "")
    ∧ (∀ (pt : ParsedFieldType) (g q : String) (fs : List PNode),
         (classCodeS none (.mk .inlineFragment pt g q fs)).1 = "")
    ∧ (∀ (ppt pt : ParsedFieldType) (g q : String) (fs : List PNode),
         pt.is_primitive = true →
           (classCodeS (some ppt) (.mk .inlineFragment pt g q fs)).1 = "") := by
  refine ⟨fun p n => ⟨traverseS_fst_join p n, declList_count p n⟩, ?_, ?_, ?_⟩
  · intro p pt g q fs hp
    simp [classCodeS, PNode.kind, PNode.parsed_type, hp]
  · intro pt g q fs
    simp [classCodeS, PNode.kind]
  · intro ppt pt g q fs hp
    simp [classCodeS, PNode.kind, PNode.parsed_type, hp]

/-- Witness for generate_decl_census on the example tree and on concrete
primitive and orphan-fragment nodes. -/
theorem generate_decl_census_witness :
    ((traverseS none exRootQ).1 = strConcat (declList none exRootQ)
     ∧ ((declList none exRootQ).countP fun s => !(s == "")) = objNodeCount none exRootQ)
    ∧ (classCodeS none (.mk .classNode ⟨"str", "str", true⟩ "x" "x" [])).1 = ""
    ∧ (classCodeS none (.mk .inlineFragment ⟨"T", "T", false⟩ "" "" [])).1 = ""
    ∧ (classCodeS (some ⟨"P", "P", false⟩)
        (.mk .inlineFragment ⟨"str", "str", true⟩ "" "" [])).1 = "" :=
  ⟨generate_decl_census.1 none exRootQ,
   generate_decl_census.2.1 none ⟨"str", "str", true⟩ "x" "x" [] rfl,
   generate_decl_census.2.2.1 ⟨"T", "T", false⟩ "" "" [],
   generate_decl_census.2.2.2 ⟨"P", "P", false⟩ ⟨"str", "str", true⟩ "" "" [] rfl⟩

/-- Arena lookup below the old length ignores an appended node. -/
theorem vArenaGet_append_lt (arena : List VNode) (x : VNode) (i : Nat)
    (h : i < arena.length) : vArenaGet (arena ++ [x]) i = vArenaGet arena i := by
  simp [vArenaGet, List.getD_eq_getElem?_getD, List.getElem?_append_left h]

/-- Arena lookup at the old length finds the appended node. -/
theorem vArenaGet_append_self (arena : List VNode) (x : VNode) :
    vArenaGet (arena ++ [x]) arena.length = x := by
  simp [vArenaGet, List.getD_eq_getElem?_getD, List.getElem?_append_right (le_refl _)]

/-- Arena lookup at an updated index finds the update. -/
theorem vArenaGet_set_self (arena : List VNode) (c : Nat) (x : VNode)
    (h : c < arena.length) : vArenaGet (arena.set c x) c = x := by
  simp [vArenaGet, List.getD_eq_getElem?_getD, List.getElem?_set_self h]

/-- Arena lookup elsewhere ignores an update. -/
theorem vArenaGet_set_ne (arena : List VNode) (c : Nat) (x : VNode) (i : Nat)
    (h : ¬c = i) : vArenaGet (arena.set c x) i = vArenaGet arena i := by
  simp [vArenaGet, List.getD_eq_getElem?_getD, List.getElem?_set_ne h]

/-- An enter transition preserves the visitor invariant: the fresh node is
appended with the cursor as parent and registered once in its fields. -/
theorem enterV_preserves (st : VisitorState) (k : NodeKind) (pt : ParsedFieldType)
    (g q : String) (st2 : VisitorState) (hwf : VisitorWF st)
    (h : enterV st k pt g q = some st2) : VisitorWF st2 := by
  obtain ⟨hlen, hroot_par, hroot_kind, hroot_pt, hup, hdown, hnodup, hcur⟩ := hwf
  match hc : st.cursor with
  | none =>
    rw [enterV, hc] at h
    exact Option.noConfusion h
  | some c =>
    rw [enterV, hc] at h
    have hclen : c < st.arena.length := hcur c hc
    injection h with h2
    subst h2
    set N := st.arena.length with hN
    set cn := vArenaGet st.arena c with hcn
    set cnew : VNode := { cn with fields := cn.fields ++ [N] } with hcnew
    set vnew : VNode := ⟨k, some c, [], pt, g, q⟩ with hvnew
    set arena2 := (st.arena.set c cnew) ++ [vnew] with harena2
    have len2 : arena2.length = N + 1 := by
      simp [harena2]
    have g_new : vArenaGet arena2 N = vnew := by
      have hh := vArenaGet_append_self (st.arena.set c cnew) vnew
      rwa [List.length_set] at hh
    have g_c : vArenaGet arena2 c = cnew := by
      rw [harena2, vArenaGet_append_lt _ _ _ (by simpa using hclen),
        vArenaGet_set_self _ _ _ hclen]
    have g_old : ∀ i, i < N → ¬i = c → vArenaGet arena2 i = vArenaGet st.arena i := by
      intro i hi hic
      rw [harena2, vArenaGet_append_lt _ _ _ (by simpa using hi),
        vArenaGet_set_ne _ _ _ _ fun hh => hic hh.symm]
    have gpar : ∀ j, j < N → (vArenaGet arena2 j).parent = (vArenaGet st.arena j).parent := by
      intro j hj
      by_cases hjc : j = c
      · subst hjc
        rw [g_c]
      · rw [g_old j hj hjc]
    have gkind : ∀ j, j < N → (vArenaGet arena2 j).kind = (vArenaGet st.arena j).kind := by
      intro j hj
      by_cases hjc : j = c
      · subst hjc
        rw [g_c]
      · rw [g_old j hj hjc]
    have gpt : ∀ j, j < N →
        (vArenaGet arena2 j).parsed_type = (vArenaGet st.arena j).parsed_type := by
      intro j hj
      by_cases hjc : j = c
      · subst hjc
        rw [g_c]
      · rw [g_old j hj hjc]
    have gfields : ∀ j, j < N → ¬j = c →
        (vArenaGet arena2 j).fields = (vArenaGet st.arena j).fields := by
      intro j hj hjc
      rw [g_old j hj hjc]
    have hfields_lt : ∀ j ∈ cn.fields, j < N := by
      intro j hj
      exact (hdown c hclen j hj).1
    unfold VisitorWF
    dsimp only
    refine ⟨?_, ?_, ?_, ?_, ?_, ?_, ?_, ?_⟩
    · omega
    · rw [gpar 0 hlen]
      exact hroot_par
    · rw [gkind 0 hlen]
      exact hroot_kind
    · rw [gpt 0 hlen]
      exact hroot_pt
    · intro i hi hi0
      by_cases hiN : i = N
      · subst hiN
        refine ⟨c, ?_, hclen, ?_⟩
        · rw [g_new]
        · rw [g_c]
          exact List.mem_append_right _ (by simp)
      · have hiN2 : i < N := by
          rw [len2] at hi
          omega
        obtain ⟨q2, hq2par, hq2lt, hq2mem⟩ := hup i hiN2 hi0
        refine ⟨q2, ?_, hq2lt, ?_⟩
        · rw [gpar i hiN2]
          exact hq2par
        · by_cases hq2c : q2 = c
          · subst hq2c
            rw [g_c]
            exact List.mem_append_left _ hq2mem
          · rw [gfields q2 (lt_trans hq2lt hiN2) hq2c]
            exact hq2mem
    · intro q2 hq2 j hj
      by_cases hq2N : q2 = N
      · subst hq2N
        rw [g_new] at hj
        simp [hvnew] at hj
      · have hq2lt : q2 < N := by
          rw [len2] at hq2
          omega
        by_cases hq2c : q2 = c
        · subst hq2c
          rw [g_c] at hj
          rcases List.mem_append.mp hj with hold | hnewm
          · obtain ⟨hjlt, hj0, hqj, hjpar⟩ := hdown q2 hclen j hold
            refine ⟨by omega, hj0, hqj, ?_⟩
            rw [gpar j hjlt]
            exact hjpar
          · have hjN : j = N := by simpa using hnewm
            refine ⟨by omega, by omega, by omega, ?_⟩
            rw [hjN, g_new]
        · rw [gfields q2 hq2lt hq2c] at hj
          obtain ⟨hjlt, hj0, hqj, hjpar⟩ := hdown q2 hq2lt j hj
          refine ⟨by omega, hj0, hqj, ?_⟩
          rw [gpar j hjlt]
          exact hjpar
    · intro q2 hq2
      by_cases hq2N : q2 = N
      · subst hq2N
        rw [g_new]
        simp [hvnew]
      · have hq2lt : q2 < N := by
          rw [len2] at hq2
          omega
        by_cases hq2c : q2 = c
        · subst hq2c
          rw [g_c]
          simp only [hcnew]
          rw [List.nodup_append]
          refine ⟨hnodup q2 hclen, List.nodup_singleton N, ?_⟩
          intro a ha hamem
          have := hfields_lt a ha
          simp at hamem
          omega
        · rw [gfields q2 hq2lt hq2c]
          exact hnodup q2 hq2lt
    · intro c2 hc2
      injection hc2 with hc2
      omega

/-- A leave transition preserves the visitor invariant. -/
theorem leaveV_preserves (st : VisitorState) (hwf : VisitorWF st) :
    VisitorWF (leaveV st) := by
  obtain ⟨hlen, hroot_par, hroot_kind, hroot_pt, hup, hdown, hnodup, hcur⟩ := hwf
  refine ⟨hlen, hroot_par, hroot_kind, hroot_pt, hup, hdown, hnodup, ?_⟩
  intro c2 hc2
  show c2 < st.arena.length
  simp only [leaveV] at hc2
  match hc : st.cursor with
  | none =>
    rw [hc] at hc2
    exact Option.noConfusion hc2
  | some c =>
    rw [hc] at hc2
    dsimp only at hc2
    have hclen : c < st.arena.length := hcur c hc
    by_cases hc0 : c = 0
    · subst hc0
      rw [hroot_par] at hc2
      exact Option.noConfusion hc2
    · obtain ⟨q2, hq2par, hq2lt, _⟩ := hup c hclen hc0
      rw [hq2par] at hc2
      injection hc2 with hc2
      omega

/-- Every visitor transition preserves the invariant. -/
theorem stepV_preserves (st : VisitorState) (e : VisitEvent) (st2 : VisitorState)
    (hwf : VisitorWF st) (h : stepV st e = some st2) : VisitorWF st2 := by
  cases e with
  | enterOperation name => exact enterV_preserves st _ _ _ _ st2 hwf h
  | enterField pt g q => exact enterV_preserves st _ _ _ _ st2 hwf h
  | enterFragment pt => exact enterV_preserves st _ _ _ _ st2 hwf h
  | leave =>
    injection h with h2
    rw [← h2]
    exact leaveV_preserves st hwf

/-- The initial visitor state satisfies the invariant. -/
theorem visitorStart_wf : VisitorWF visitorStart := by
  refine ⟨by simp [visitorStart], rfl, rfl, rfl, ?_, ?_, ?_, ?_⟩
  · intro i hi hi0
    simp [visitorStart] at hi
    omega
  · intro q2 hq2 j hj
    simp [visitorStart] at hq2
    rw [hq2] at hj
    simp [visitorStart, vArenaGet, rootVNode] at hj
  · intro q2 hq2
    simp [visitorStart] at hq2
    rw [hq2]
    simp [visitorStart, vArenaGet, rootVNode]
  · intro c2 hc2
    simp [visitorStart] at hc2
    simp [visitorStart, hc2]

/-- Any completed run of visitor transitions preserves the invariant. -/
theorem foldlM_stepV_wf : ∀ (evs : List VisitEvent) (st st2 : VisitorState),
    VisitorWF st → evs.foldlM stepV st = some st2 → VisitorWF st2
  | [], st, st2, hwf, h => by
    simp only [List.foldlM] at h
    injection h with h2
    rw [← h2]
    exact hwf
  | e :: rest, st, st2, hwf, h => by
    simp only [List.foldlM] at h
    match hs : stepV st e with
    | none =>
      rw [hs] at h
      exact Option.noConfusion h
    | some st1 =>
      rw [hs] at h
      exact foldlM_stepV_wf rest st1 st2 (stepV_preserves st e st1 hwf hs) h

/-- C10: every tree state produced by a completed visitor run is
well-formed: the root (index 0) has no parent and empty type names, and
every other node's parent back-reference points exactly to the unique node
whose fields list contains it (exactly once). -/
theorem visitor_tree_wellFormed (evs : List VisitEvent) (st : VisitorState)
    (h : runV evs = some st) :
    (vArenaGet st.arena 0).parent = none
    ∧ (vArenaGet st.arena 0).parsed_type = ⟨"", "", false⟩
    ∧ ∀ i, i < st.arena.length → i ≠ 0 →
        ∃ q2, q2 < st.arena.length
          ∧ (vArenaGet st.arena i).parent = some q2
          ∧ i ∈ (vArenaGet st.arena q2).fields
          ∧ (vArenaGet st.arena q2).fields.count i = 1
          ∧ ∀ q3, q3 < st.arena.length → i ∈ (vArenaGet st.arena q3).fields → q3 = q2 := by
  have hwf : VisitorWF st := foldlM_stepV_wf evs visitorStart st visitorStart_wf h
  obtain ⟨hlen, hroot_par, hroot_kind, hroot_pt, hup, hdown, hnodup, hcur⟩ := hwf
  refine ⟨hroot_par, hroot_pt, ?_⟩
  intro i hi hi0
  obtain ⟨q2, hq2par, hq2lt, hq2mem⟩ := hup i hi hi0
  have hq2len : q2 < st.arena.length := lt_trans hq2lt hi
  refine ⟨q2, hq2len, hq2par, hq2mem, ?_, ?_⟩
  · exact List.count_eq_one_of_mem (hnodup q2 hq2len) hq2mem
  · intro q3 hq3 hq3mem
    have hpar3 := (hdown q3 hq3 i hq3mem).2.2.2
    rw [hq2par] at hpar3
    injection hpar3 with hh
    exact hh.symm


/-- Witness for visitor_tree_wellFormed at the event sequence of
query Q { x }. -/
theorem visitor_tree_wellFormed_witness :
    runV exEvents = some exVState
    ∧ ((vArenaGet exVState.arena 0).parent = none
       ∧ (vArenaGet exVState.arena 0).parsed_type = ⟨"", "", false⟩
       ∧ ∀ i, i < exVState.arena.length → i ≠ 0 →
           ∃ q2, q2 < exVState.arena.length
             ∧ (vArenaGet exVState.arena i).parent = some q2
             ∧ i ∈ (vArenaGet exVState.arena q2).fields
             ∧ (vArenaGet exVState.arena q2).fields.count i = 1
             ∧ ∀ q3, q3 < exVState.arena.length →
                 i ∈ (vArenaGet exVState.arena q3).fields → q3 = q2) :=
  ⟨rfl, visitor_tree_wellFormed exEvents exVState rfl⟩
